import Mathlib

/-!
Verification development for the workflow-status synchronization engine of
`vis-workflow-exec`.  The definitions below are a shallow embedding of the
TypeScript source:

* `src/src/api/ArgoApiClient.ts`, method `streamWorkflowEvents` (polling
  session: snapshot diffing, per-node completion callbacks, adaptive polling
  interval, consecutive-error budget, startup timeout, heartbeat timer,
  `stopFetching`);
* `src/src/components/WorkflowManager.tsx`, function
  `fetchWorkflowTaskOutputs` (output extraction from structured parameters
  and from fetched log text).

JavaScript strings that are tested for truthiness are modelled as
`Option String` with `truthyStr` (both `undefined` and the empty string are
falsy).  JavaScript numbers used by the interval arithmetic are modelled as
exact rationals (`0.8` is `4/5`, `1.2` is `6/5`); every property proved about
them is robust to that choice because the source only multiplies, compares
and clamps.
-/

set_option linter.unusedVariables false

namespace VisWorkflowExec

/-- JS truthiness of a possibly-absent string: `undefined` and `""` are falsy. -/
def truthyStr : Option String → Bool
  | none => false
  | some s => !(s == "")

/-- Lookup in the `latestResourceVersions` record, modelled as an association
list keyed by workflow name. -/
def alookup : List (String × String) → String → Option String
  | [], _ => none
  | (k, v) :: rest, key => if k == key then some v else alookup rest key

/-- Assignment `latestResourceVersions[name] = resourceVersion`: overwrite the
binding for `key`, or append it. -/
def aset : List (String × String) → String → String → List (String × String)
  | [], key, v => [(key, v)]
  | (k, w) :: rest, key, v =>
    if k == key then (k, v) :: rest else (k, w) :: aset rest key v

/-- One entry of `workflow.status.nodes`: the fields of Argo `NodeStatus`
that `streamWorkflowEvents` reads (`node.type`, `node.phase`). -/
structure WfNode where
  ntype : String
  phase : String
  deriving DecidableEq, Repr

/-- One element of the fetched `data.items` list: the fields of a workflow
object that `streamWorkflowEvents` reads.  `name` is
`workflow.metadata?.name`, `rv` is `workflow.metadata?.resourceVersion`, and
`nodes` is `workflow.status?.nodes` (`none` when `status` or `status.nodes`
is absent; the key of each pair is the node id). -/
structure Wf where
  name : Option String
  rv : Option String
  nodes : Option (List (String × WfNode))
  deriving DecidableEq, Repr

/-- Everything the session delivers through its two callbacks.
`change` is the `callback(event)` call at the end of the per-workflow branch;
`completion` is the `callback(event)` call fired inside the node loop for a
newly terminal Pod/Container node (tagged here with the triggering node id);
`heartbeat` is the heartbeat timer payload; `errorCb` is a plain
`errorCallback(error)` invocation; `fatalExhausted` is the
`errorCallback` invocation reporting five consecutive failures; `timeoutErr`
is the `errorCallback` invocation of the 30s connection timeout. -/
inductive SEvent where
  | change (wfName kind : String)
  | completion (wfName nodeId : String)
  | heartbeat
  | errorCb
  | fatalExhausted
  | timeoutErr
  deriving DecidableEq, Repr

/-- The mutable diff state owned by one subscription session:
`latestResourceVersions` and `processedNodes`. -/
structure DiffState where
  versions : List (String × String)
  processed : List String
  deriving DecidableEq, Repr

/-- The test of the node loop: Pod/Container type, Succeeded/Failed phase,
node id not yet processed. -/
def nodeHit (processed : List String) (nodeId : String) (node : WfNode) : Bool :=
  (node.ntype == "Pod" || node.ntype == "Container")
    && (node.phase == "Succeeded" || node.phase == "Failed")
    && !(processed.contains nodeId)

/-- The `Object.entries(workflow.status.nodes).forEach` loop: for every node
passing `nodeHit`, mark its id processed and fire the completion callback. -/
def processNodes (processed : List String) (wfName : String) :
    List (String × WfNode) → List String × List SEvent
  | [] => (processed, [])
  | (nodeId, node) :: rest =>
    if nodeHit processed nodeId node then
      let r := processNodes (nodeId :: processed) wfName rest
      (r.1, SEvent.completion wfName nodeId :: r.2)
    else
      processNodes processed wfName rest

/-- The body of `for (const workflow of workflows)`: the version gate
`if (name && resourceVersion)`, the change test
`!latestResourceVersions[name] || latestResourceVersions[name] !== resourceVersion`,
the cache write, the event kind ternary (evaluated on the already-updated
cache, exactly as in the source), the node loop, and the final
`callback(event)`.  The returned `Bool` is the contribution of this workflow
to `hasUpdates`. -/
def processWorkflow (st : DiffState) (w : Wf) : DiffState × List SEvent × Bool :=
  if truthyStr w.name && truthyStr w.rv then
    let name := w.name.getD ""
    let rv := w.rv.getD ""
    let cached := alookup st.versions name
    if !(truthyStr cached) || !(cached == some rv) then
      let versions2 := aset st.versions name rv
      let kind := if truthyStr (alookup versions2 name) then "MODIFIED" else "ADDED"
      let r :=
        match w.nodes with
        | some ns => processNodes st.processed name ns
        | none => (st.processed, [])
      (⟨versions2, r.1⟩, r.2 ++ [SEvent.change name kind], true)
    else
      (st, [], false)
  else
    (st, [], false)

/-- One successful poll body: iterate `processWorkflow` over the fetched
`data.items` list in order, collecting emitted events and accumulating the
`hasUpdates` flag. -/
def processPoll (st : DiffState) : List Wf → DiffState × List SEvent × Bool
  | [] => (st, [], false)
  | w :: rest =>
    let r := processWorkflow st w
    let r2 := processPoll r.1 rest
    (r2.1, r.2.1 ++ r2.2.1, r.2.2 || r2.2.2)

/-- The fresh diff state of a newly created session. -/
def initDiff : DiffState := ⟨[], []⟩

/-! ## The polling session (Adaptive Poll Scheduler)

State and step relation of one `streamWorkflowEvents` subscription.  The
single-threaded JS event loop is modelled by a list of atomic actions, each
of which runs one callback body to completion. -/

/-- `MAX_ERRORS` in the source. -/
def MAX_ERRORS : Nat := 5

/-- `minIntervalMs`: the floor literal `1000` of `Math.max(1000, ...)`. -/
def minIntervalMs : ℚ := 1000

/-- `maxIntervalMs`: the ceiling literal `10000` of `Math.min(10000, ...)`. -/
def maxIntervalMs : ℚ := 10000

/-- The heartbeat timer period (`15000` ms). -/
def heartbeatPeriodMs : Nat := 15000

/-- The connection (startup) timeout (`30000` ms). -/
def startupTimeoutMs : Nat := 30000

/-- `Math.max` on two numbers. -/
def jsMax (a b : ℚ) : ℚ := if a < b then b else a

/-- `Math.min` on two numbers. -/
def jsMin (a b : ℚ) : ℚ := if a < b then a else b

/-- The interval adaptation after a successful poll:
`Math.max(1000, refreshInterval * 0.8)` when the poll carried updates,
`Math.min(10000, refreshInterval * 1.2)` otherwise. -/
def updateInterval (hasUpdates : Bool) (i : ℚ) : ℚ :=
  if hasUpdates then jsMax 1000 (i * (4 / 5)) else jsMin 10000 (i * (6 / 5))

/-- The delay passed to `setTimeout(fetchData, refreshInterval * 2)` on the
retry path after a failed poll. -/
def retryDelayMs (i : ℚ) : ℚ := i * 2

/-- The state owned by one subscription session.  `isFetching`, `errorCount`,
`refreshInterval` and the diff state mirror the closure variables of
`streamWorkflowEvents`; `connTimeoutPending` says the 30s startup timeout is
still scheduled; `heartbeatActive` says the heartbeat interval timer is still
installed; `inFlight` says a fetch has been issued and not yet settled;
`abortPending` says an in-flight fetch was aborted by `controller.abort()`
and its rejection handler (the `catch` block) has not run yet. -/
structure Session where
  isFetching : Bool
  diff : DiffState
  refreshInterval : ℚ
  errorCount : Nat
  connTimeoutPending : Bool
  heartbeatActive : Bool
  inFlight : Bool
  abortPending : Bool
  deriving DecidableEq, Repr

/-- The session right after `streamWorkflowEvents` returns: fetching enabled,
empty caches, interval 2000, no errors, startup timeout armed, heartbeat
installed, the first `fetchData()` call not yet resolved into a fetch. -/
def initSession : Session :=
  ⟨true, initDiff, 2000, 0, true, true, false, false⟩

/-- Atomic actions of the session event loop.  `startFetch` is a `fetchData`
invocation that passes the `isFetching` guard and issues the HTTP fetch
(fetches are serial per session, so it requires no fetch in flight);
`fetchOk` resolves the in-flight fetch with a 200 response and a parseable
body whose `items` are the given workflows; `fetchBadJson` resolves it with a
200 response whose body fails `response.json()`; `fetchFail` rejects it (network
error or non-ok status); `heartbeatTick`, `connTimeoutFire` fire the
corresponding timers; `stopCall` runs `stopFetching`; `abortResolve` runs the
`catch` block of a fetch rejected by `controller.abort()`. -/
inductive SAction where
  | startFetch
  | fetchOk (wfs : List Wf)
  | fetchBadJson
  | fetchFail
  | heartbeatTick
  | connTimeoutFire
  | stopCall
  | abortResolve
  deriving DecidableEq, Repr

/-- `stopFetching`: set `isFetching = false`, `controller.abort()` (which
turns an in-flight fetch into a pending rejection), clear the startup
timeout, clear the heartbeat interval.  The pending poll `setTimeout` is not
cleared by the source; it is represented by later `startFetch` actions, which
the `isFetching` guard neutralizes. -/
def stopFetching (s : Session) : Session :=
  { s with
    isFetching := false
    inFlight := false
    abortPending := s.abortPending || s.inFlight
    connTimeoutPending := false
    heartbeatActive := false }

/-- The error-path tail of `fetchData` (the `catch` block): increment
`errorCount`, call `errorCallback(error)`, and if the count reached
`MAX_ERRORS` stop fetching and report exhaustion; otherwise a retry is
scheduled when `isFetching` still holds. -/
def catchBlock (s : Session) : Session × List SEvent :=
  let ec := s.errorCount + 1
  if MAX_ERRORS ≤ ec then
    ({ s with errorCount := ec, isFetching := false },
      [SEvent.errorCb, SEvent.fatalExhausted])
  else
    ({ s with errorCount := ec }, [SEvent.errorCb])

/-- One atomic step of the session. -/
def stepS (s : Session) (a : SAction) : Session × List SEvent :=
  match a with
  | SAction.startFetch =>
    if s.isFetching && !s.inFlight then ({ s with inFlight := true }, []) else (s, [])
  | SAction.fetchOk wfs =>
    if s.inFlight then
      let r := processPoll s.diff wfs
      ({ s with
          inFlight := false
          connTimeoutPending := false
          errorCount := 0
          diff := r.1
          refreshInterval := updateInterval r.2.2 s.refreshInterval },
        r.2.1)
    else (s, [])
  | SAction.fetchBadJson =>
    if s.inFlight then
      -- the ok branch already cleared the timeout and reset the counter
      -- before `response.json()` threw
      catchBlock
        { s with inFlight := false, connTimeoutPending := false, errorCount := 0 }
    else (s, [])
  | SAction.fetchFail =>
    if s.inFlight then catchBlock { s with inFlight := false } else (s, [])
  | SAction.heartbeatTick =>
    if s.heartbeatActive then (s, [SEvent.heartbeat]) else (s, [])
  | SAction.connTimeoutFire =>
    if s.connTimeoutPending then
      ({ s with connTimeoutPending := false, isFetching := false },
        [SEvent.timeoutErr])
    else (s, [])
  | SAction.stopCall => (stopFetching s, [])
  | SAction.abortResolve =>
    if s.abortPending then catchBlock { s with abortPending := false } else (s, [])

/-- Run a list of actions from a session state, concatenating the delivered
events. -/
def runS (s : Session) : List SAction → Session × List SEvent
  | [] => (s, [])
  | a :: rest =>
    let r := stepS s a
    let r2 := runS r.1 rest
    (r2.1, r.2 ++ r2.2)

/-! ## Event counting and snapshot sequences -/

/-- Recognize a change event for workflow `n`. -/
def isChangeFor (n : String) : SEvent → Bool
  | SEvent.change m _ => m == n
  | _ => false

/-- Recognize a completion callback firing for node id `nid`. -/
def isCompletionFor (nid : String) : SEvent → Bool
  | SEvent.completion _ m => m == nid
  | _ => false

/-- Number of delivered events satisfying `p`. -/
def countEvents (p : SEvent → Bool) (evs : List SEvent) : Nat :=
  (evs.filter p).length

/-- `1` when the flag holds, `0` otherwise. -/
def indB (b : Bool) : Nat := if b then 1 else 0

/-- A snapshot of workflow `n` carrying version token `v` and no node map. -/
def mkSnap (n v : String) : Wf := ⟨some n, some v, none⟩

/-- Feed a sequence of successive snapshots of one workflow id through the
differ, threading the session diff state. -/
def runSnaps (st : DiffState) (n : String) : List String → DiffState × List SEvent
  | [] => (st, [])
  | v :: vs =>
    let r := processWorkflow st (mkSnap n v)
    let r2 := runSnaps r.1 n vs
    (r2.1, r.2.1 ++ r2.2)

/-- Number of distinct version-token transitions in a token sequence, given
the token currently cached for the workflow id (`none` when unseen): a poll
counts exactly when its token differs from the cached one. -/
def countTokenTransitions (cached : Option String) : List String → Nat
  | [] => 0
  | v :: vs => (if cached == some v then 0 else 1) + countTokenTransitions (some v) vs

/-- `n` polls that succeed with an empty workflow list (no updates). -/
def noUpdateCycles (n : Nat) : List SAction :=
  (List.replicate n [SAction.startFetch, SAction.fetchOk []]).flatten

/-- `n` polls that fail. -/
def failCycles (n : Nat) : List SAction :=
  (List.replicate n [SAction.startFetch, SAction.fetchFail]).flatten

/-- A post-stop session is fully disarmed: fetching disabled, nothing in
flight, heartbeat and startup-timeout timers cleared. -/
def Disarmed (s : Session) : Prop :=
  s.isFetching = false ∧ s.inFlight = false ∧ s.heartbeatActive = false
    ∧ s.connTimeoutPending = false

/-! ## Output/Log Extractor (`fetchWorkflowTaskOutputs` in WorkflowManager.tsx) -/

/-- One entry of `node.outputs.parameters`. -/
structure OutParam where
  name : String
  value : Option String
  deriving DecidableEq, Repr

/-- The fields of a node that `fetchWorkflowTaskOutputs` reads.  `outputs` is
`node.outputs?.parameters` (`none` when either level is absent). -/
structure MgrNode where
  id : String
  name : String
  ntype : String
  phase : String
  outputs : Option (List OutParam)
  deriving DecidableEq, Repr

/-- The `forEach` over `node.outputs.parameters`: every parameter named
`output-data` with a truthy value assigns `newOutputs[node.name]`, so the
last matching parameter wins. -/
def structuredOutput (params : List OutParam) : Option String :=
  params.foldl
    (fun acc p => if p.name == "output-data" && truthyStr p.value then p.value else acc)
    none

/-- The structured-parameter value of a node (`none` when `node.outputs` or
`parameters` is absent). -/
def nodeStructured (node : MgrNode) : Option String :=
  match node.outputs with
  | some ps => structuredOutput ps
  | none => none

/-- JS `String.prototype.trim`: strip whitespace from both ends. -/
def jsTrim (s : String) : String :=
  String.mk (((s.data.dropWhile Char.isWhitespace).reverse.dropWhile Char.isWhitespace).reverse)

/-- The characters of the log marker searched by
`logs.match(/output-data: (.+)$/m)`. -/
def markerChars : List Char := "output-data: ".data

/-- The regex search `/output-data: (.+)$/m` over the log text: the first
position where the marker occurs followed by at least one character before
the end of the line yields the rest of that line as the capture.  The
pattern has no `^` anchor, so the marker may occur anywhere in a line. -/
def scanLog : List Char → Option String
  | [] => none
  | c :: rest =>
    if markerChars.isPrefixOf (c :: rest) then
      let cap := ((c :: rest).drop markerChars.length).takeWhile (fun ch => !(ch == '\n'))
      if cap.isEmpty then scanLog rest else some (String.mk cap)
    else scanLog rest

/-- `logs.match(/output-data: (.+)$/m)`, returning the first capture. -/
def logsMatch (logs : String) : Option String := scanLog logs.data

/-- The log branch of `fetchWorkflowTaskOutputs`: for a Pod node with a
truthy workflow name and node id, fetch the logs (`none` models a rejected
fetch, whose `.catch` leaves the outputs untouched) and return the trimmed
first capture of the marker pattern, when any. -/
def logDerivedOutput (wfName : Option String)
    (logFetcher : String → String → Option String) (node : MgrNode) : Option String :=
  if node.ntype == "Pod" && truthyStr wfName && !(node.id == "") then
    match logFetcher (wfName.getD "") node.id with
    | some logs =>
      match logsMatch logs with
      | some cap => some (jsTrim cap)
      | none => none
    | none => none
  else none

/-- The value recorded in `newOutputs[node.name]` for one node by
`fetchWorkflowTaskOutputs`: nodes not in Succeeded phase record nothing; a
Succeeded node first records its structured parameter value, and the log
fetch (which resolves later, before the final `Promise.all` read) overwrites
it with the log-derived value whenever one is found. -/
def nodeResolvedOutput (wfName : Option String)
    (logFetcher : String → String → Option String) (node : MgrNode) : Option String :=
  if node.phase == "Succeeded" then
    match logDerivedOutput wfName logFetcher node with
    | some v => some v
    | none => nodeStructured node
  else none

/-- Concrete node for the extraction counterexample: Succeeded Pod with a
structured `output-data` parameter valued `A`. -/
def exNode : MgrNode :=
  ⟨"pod-1", "task-a", "Pod", "Succeeded", some [⟨"output-data", some "A"⟩]⟩

/-- Concrete log fetcher whose logs carry the marker with value `B`. -/
def exFetcher : String → String → Option String := fun _ _ => some "output-data: B\n"

/-! ## DAG Order Resolver

Modelled from the spec: no DAG Order Resolver exists under `src/` (the
repository only declares `DagTask.dependencies` in its manifest types), so
the resolver, its `NoOrder` result and the alphabetical fallback are built
from the words of the specification: Kahn's algorithm with lexicographic
tie-breaking, returning no order (rather than raising) on a cyclic graph. -/

/-- A dependency graph: task names plus, for each task, the list of tasks it
depends on. -/
structure DepGraph where
  taskNames : List String
  edges : List (String × List String)
  deriving Repr

/-- The dependencies of a task (empty for a task with no edge entry). -/
def depsOf (g : DepGraph) (t : String) : List String :=
  (List.lookup t g.edges).getD []

/-- A task is ready when none of its dependencies is still unordered. -/
def isReady (g : DepGraph) (remaining : List String) (t : String) : Bool :=
  (depsOf g t).all (fun d => !(remaining.contains d))

/-- The lexicographically smallest string of a list. -/
def minString : List String → Option String
  | [] => none
  | s :: rest =>
    match minString rest with
    | none => some s
    | some m => if s < m then some s else some m

/-- The lexicographically smallest ready task among the unordered ones. -/
def minReady (g : DepGraph) (remaining : List String) : Option String :=
  minString (remaining.filter (isReady g remaining))

/-- The Kahn loop: repeatedly output the smallest ready task; when none is
ready and tasks remain, the graph is cyclic and no order exists.  The fuel
starts at the number of tasks, which bounds the number of iterations. -/
def kahnLoop (g : DepGraph) : Nat → List String → List String → Option (List String)
  | 0, acc, remaining => if remaining.isEmpty then some acc.reverse else none
  | fuel + 1, acc, remaining =>
    match minReady g remaining with
    | none => if remaining.isEmpty then some acc.reverse else none
    | some t => kahnLoop g fuel (t :: acc) (remaining.erase t)

/-- Modelled from the spec: `resolve(dependencyGraph)`, returning the task
order or `none` (the NoOrder value) for a cyclic graph. -/
def resolveOrder (g : DepGraph) : Option (List String) :=
  kahnLoop g g.taskNames.length [] g.taskNames

/-- Alphabetical ordering of raw node names. -/
def sortAlpha (names : List String) : List String :=
  names.mergeSort (fun a b => decide (a ≤ b))

/-- Modelled from the spec: the caller of the resolver uses the resolved
order when one exists and falls back to alphabetical ordering of the raw
node names on NoOrder. -/
def orderedNames (g : DepGraph) (rawNames : List String) : List String :=
  match resolveOrder g with
  | some ord => ord
  | none => sortAlpha rawNames

/-- The graph contains a cycle: some nonempty set of tasks in which every
task depends on another task of the set. -/
def HasCycle (g : DepGraph) : Prop :=
  ∃ S : List String, S ≠ [] ∧ (∀ t ∈ S, t ∈ g.taskNames)
    ∧ ∀ t ∈ S, ∃ d ∈ depsOf g t, d ∈ S

/-- The order respects the edges: every dependency of an ordered task that
is itself a task appears strictly earlier in the order. -/
def ConsistentWithEdges (g : DepGraph) (ord : List String) : Prop :=
  ∀ p t q, ord = p ++ t :: q → ∀ d ∈ depsOf g t, d ∈ g.taskNames → d ∈ p

/-- The cyclic two-task graph of the spec: P depends on Q, Q depends on P. -/
def cycleGraph : DepGraph :=
  ⟨["P", "Q"], [("P", ["Q"]), ("Q", ["P"])]⟩

/-- The three-task chain of the spec: A, B depends on A, C depends on B. -/
def chainGraph : DepGraph :=
  ⟨["C", "A", "B"], [("B", ["A"]), ("C", ["B"])]⟩

/-! ## Differ lemmas and claims C3, C4, C2 -/

theorem alookup_aset_self (l : List (String × String)) (k v : String) :
    alookup (aset l k v) k = some v := by
  induction l with
  | nil => simp [aset, alookup]
  | cons p rest ih =>
    by_cases h : p.1 == k
    · simp [aset, alookup, h]
    · cases p
      simp_all [aset, alookup, h]

/-- Shape of the differ on a single-workflow snapshot with nonempty name and
token: an equal cached token yields no event and no state change; any other
cached state yields exactly one change event, kind MODIFIED, and caches the
token. -/
theorem processWorkflow_mkSnap (st : DiffState) (n v : String)
    (hn : n ≠ "") (hv : v ≠ "") :
    processWorkflow st (mkSnap n v) =
      if alookup st.versions n = some v then (st, [], false)
      else (⟨aset st.versions n v, st.processed⟩, [SEvent.change n "MODIFIED"], true) := by
  have hn2 : (n == "") = false := by simpa using hn
  have hv2 : (v == "") = false := by simpa using hv
  by_cases hc : alookup st.versions n = some v
  · simp [processWorkflow, mkSnap, truthyStr, hn2, hv2, hc]
  · have hb : (alookup st.versions n == some v) = false := by
      simpa using hc
    simp [processWorkflow, mkSnap, truthyStr, hn2, hv2, hc, hb,
      alookup_aset_self]

/-- C3: code bug.  The source computes the event kind from
`latestResourceVersions[name]` on the line after assigning it, so the
ADDED branch is dead: the first poll that sees a fresh workflow id already
emits kind MODIFIED.  The claim (and spec §4.2) requires Added here. -/
theorem first_poll_kind_is_modified :
    processWorkflow initDiff ⟨some "wf-1", some "5", none⟩ =
      (⟨[("wf-1", "5")], []⟩, [SEvent.change "wf-1" "MODIFIED"], true) := by decide

/-- C4 counterexample: a fetched snapshot without a version token is not
classified as Modified; the `if (name && resourceVersion)` gate skips it
entirely, emitting nothing and leaving the caches untouched, even though it
carries a fresh Succeeded Pod node. -/
theorem missing_token_snapshot_counterexample :
    processWorkflow initDiff ⟨some "wf-1", none, some [("n1", ⟨"Pod", "Succeeded"⟩)]⟩ =
      (initDiff, [], false) := by decide

/-- C4 amended: a snapshot whose version token is absent or empty is skipped
for that poll: no event, no completion processing, no cache update. -/
theorem missing_token_snapshot_skipped (st : DiffState) (w : Wf)
    (h : truthyStr w.rv = false) :
    processWorkflow st w = (st, [], false) := by
  unfold processWorkflow
  rw [h]
  simp

theorem missing_token_snapshot_skipped_witness :
    truthyStr (Wf.rv ⟨some "wf-1", none, some [("n1", ⟨"Pod", "Succeeded"⟩)]⟩) = false ∧
      processWorkflow initDiff ⟨some "wf-1", none, some [("n1", ⟨"Pod", "Succeeded"⟩)]⟩ =
        (initDiff, [], false) :=
  ⟨rfl, missing_token_snapshot_skipped initDiff _ rfl⟩

/-- C2: over any sequence of fetched snapshots of one workflow id (nonempty
id and tokens), the number of change events delivered equals the number of
distinct version-token transitions, and a poll whose token equals the cached
one delivers none.  Change events are the per-workflow `callback(event)` of
the changed branch; the node-loop calls are the completion notices of C1. -/
theorem differ_change_event_count (st : DiffState) (n : String) (vs : List String)
    (hn : n ≠ "") (hv : ∀ v ∈ vs, v ≠ "") :
    countEvents (isChangeFor n) (runSnaps st n vs).2 =
      countTokenTransitions (alookup st.versions n) vs := by
  induction vs generalizing st with
  | nil => simp [runSnaps, countTokenTransitions, countEvents]
  | cons v vs ih =>
    have hv1 : v ≠ "" := hv v (by simp)
    have hvs : ∀ u ∈ vs, u ≠ "" := fun u hu => hv u (by simp [hu])
    rw [runSnaps, processWorkflow_mkSnap st n v hn hv1]
    by_cases hc : alookup st.versions n = some v
    · have hb : (alookup st.versions n == some v) = true := by simpa using hc
      simp only [if_pos hc]
      rw [countTokenTransitions, if_pos hb]
      simpa [hc] using ih st hvs
    · have hb : (alookup st.versions n == some v) = false := by simpa using hc
      simp only [if_neg hc]
      rw [countTokenTransitions, if_neg (by simp [hb])]
      have ih2 := ih ⟨aset st.versions n v, st.processed⟩ hvs
      simp only [alookup_aset_self] at ih2
      simp [countEvents, isChangeFor, ih2]
      simp only [countEvents] at ih2
      omega

theorem differ_change_event_count_witness :
    ("wf" ≠ "" ∧ (∀ v ∈ (["5", "5", "6"] : List String), v ≠ "")) ∧
      countEvents (isChangeFor "wf") (runSnaps initDiff "wf" ["5", "5", "6"]).2 = 2 :=
  ⟨⟨by decide, by decide⟩,
    (differ_change_event_count initDiff "wf" ["5", "5", "6"] (by decide)
      (by decide)).trans (by decide)⟩

/-! ## Output extraction: claim C9 -/

/-- C9 counterexample: a Succeeded Pod node with structured parameter
`output-data = A` whose logs contain the marker line `output-data: B` ends
up with the log-derived `B`: the structured value is consulted first but is
then overridden by the log fetch, which resolves later. -/
theorem log_value_overrides_structured :
    nodeStructured exNode = some "A" ∧
      nodeResolvedOutput (some "wf") exFetcher exNode = some "B" := by decide

/-- C9 amended: only Succeeded nodes resolve an output; the structured value
is recorded first, but the log branch runs unconditionally for Pod nodes and
its match (found anywhere in a line, trimmed) overrides the structured
value; when neither source yields anything the result is simply no value. -/
theorem output_extraction_behavior (wfName : Option String)
    (logFetcher : String → String → Option String) (node : MgrNode) (v : String) :
    (node.phase ≠ "Succeeded" → nodeResolvedOutput wfName logFetcher node = none) ∧
    (node.phase = "Succeeded" → logDerivedOutput wfName logFetcher node = none →
      nodeResolvedOutput wfName logFetcher node = nodeStructured node) ∧
    (node.phase = "Succeeded" → logDerivedOutput wfName logFetcher node = some v →
      nodeResolvedOutput wfName logFetcher node = some v) ∧
    (node.phase = "Succeeded" → logDerivedOutput wfName logFetcher node = none →
      nodeStructured node = none → nodeResolvedOutput wfName logFetcher node = none) := by
  refine ⟨?_, ?_, ?_, ?_⟩ <;> intro h1 <;>
    simp_all [nodeResolvedOutput]

theorem output_extraction_behavior_witness :
    (MgrNode.phase exNode = "Succeeded" ∧
        logDerivedOutput (some "wf") exFetcher exNode = some "B") ∧
      nodeResolvedOutput (some "wf") exFetcher exNode = some "B" :=
  ⟨⟨rfl, by decide⟩,
    (output_extraction_behavior (some "wf") exFetcher exNode "B").2.2.1 rfl (by decide)⟩

/-! ## Completion tracker: claim C1 -/

@[simp] theorem countEvents_nil (p : SEvent → Bool) : countEvents p [] = 0 := rfl

theorem countEvents_append (p : SEvent → Bool) (a b : List SEvent) :
    countEvents p (a ++ b) = countEvents p a + countEvents p b := by
  simp [countEvents, List.filter_append]

theorem countEvents_cons (p : SEvent → Bool) (e : SEvent) (l : List SEvent) :
    countEvents p (e :: l) = (if p e then 1 else 0) + countEvents p l := by
  by_cases h : p e <;> simp [countEvents, List.filter_cons, h] <;> omega

@[simp] theorem isCompletionFor_change (nid w k : String) :
    isCompletionFor nid (SEvent.change w k) = false := rfl

@[simp] theorem isCompletionFor_completion (nid w m : String) :
    isCompletionFor nid (SEvent.completion w m) = (m == nid) := rfl

@[simp] theorem isCompletionFor_heartbeat (nid : String) :
    isCompletionFor nid SEvent.heartbeat = false := rfl

@[simp] theorem isCompletionFor_errorCb (nid : String) :
    isCompletionFor nid SEvent.errorCb = false := rfl

@[simp] theorem isCompletionFor_fatalExhausted (nid : String) :
    isCompletionFor nid SEvent.fatalExhausted = false := rfl

@[simp] theorem isCompletionFor_timeoutErr (nid : String) :
    isCompletionFor nid SEvent.timeoutErr = false := rfl

theorem indB_le_one (b : Bool) : indB b ≤ 1 := by
  cases b <;> simp [indB]

theorem contains_cons_self (l : List String) (a : String) :
    (a :: l).contains a = true := by simp

theorem contains_cons_ne (l : List String) (a b : String) (h : (b == a) = false) :
    (a :: l).contains b = l.contains b := by
  simp only [List.contains_cons, h, Bool.false_or]

/-- The node loop fires at most one completion for a node id, counting the
`processedNodes` membership as an already-spent firing. -/
theorem processNodes_count (wfName : String) (nodes : List (String × WfNode))
    (processed : List String) (nid : String) :
    countEvents (isCompletionFor nid) (processNodes processed wfName nodes).2
        + indB (processed.contains nid)
      ≤ indB (((processNodes processed wfName nodes).1).contains nid) := by
  induction nodes generalizing processed with
  | nil => simp [processNodes]
  | cons p rest ih =>
    obtain ⟨nodeId, node⟩ := p
    by_cases hh : nodeHit processed nodeId node
    · have hnp : processed.contains nodeId = false := by
        cases hcb : processed.contains nodeId with
        | false => rfl
        | true =>
          have hm : nodeId ∈ processed := by simpa using hcb
          simp [nodeHit] at hh
          exact absurd hm hh.2
      have ihx := ih (nodeId :: processed)
      by_cases he : nodeId = nid
      · subst he
        have hnp2 : nodeId ∉ processed := by simpa using hnp
        rw [contains_cons_self] at ihx
        simp [processNodes, hh, countEvents_cons, hnp2, indB] at ihx ⊢
        omega
      · have hne1 : (nid == nodeId) = false := by
          simpa using fun x => he x.symm
        have hne2 : (nodeId == nid) = false := by simpa using he
        rw [contains_cons_ne processed nodeId nid hne1] at ihx
        simp [processNodes, hh, countEvents_cons, hne2, indB] at ihx ⊢
        omega
    · simpa [processNodes, hh] using ih processed

/-- Every step of the node loop preserves membership in `processedNodes`. -/
theorem processNodes_mono (wfName : String) (nodes : List (String × WfNode))
    (processed : List String) (nid : String)
    (h : processed.contains nid = true) :
    ((processNodes processed wfName nodes).1).contains nid = true := by
  induction nodes generalizing processed with
  | nil => simpa [processNodes] using h
  | cons p rest ih =>
    obtain ⟨nodeId, node⟩ := p
    by_cases hh : nodeHit processed nodeId node
    · simp only [processNodes, hh, if_pos]
      refine ih (nodeId :: processed) ?_
      rw [List.contains_cons, h, Bool.or_true]
    · simpa [processNodes, hh] using ih processed h

/-- Lifting `processNodes_count` through one workflow. -/
theorem processWorkflow_count (st : DiffState) (w : Wf) (nid : String) :
    countEvents (isCompletionFor nid) (processWorkflow st w).2.1
        + indB (st.processed.contains nid)
      ≤ indB (((processWorkflow st w).1).processed.contains nid) := by
  unfold processWorkflow
  by_cases h1 : truthyStr w.name && truthyStr w.rv
  · by_cases h2 : !(truthyStr (alookup st.versions (w.name.getD "")))
        || !(alookup st.versions (w.name.getD "") == some (w.rv.getD ""))
    · cases hn : w.nodes with
      | none => simp [h1, h2, hn, countEvents_cons]
      | some ns =>
        have hc := processNodes_count (w.name.getD "") ns st.processed nid
        simp only [h1, h2, hn, if_pos, if_true, countEvents_append]
        simpa using hc
    · simp [h1, h2]
  · simp [h1]

theorem processPoll_cons (st : DiffState) (w : Wf) (rest : List Wf) :
    processPoll st (w :: rest) =
      ((processPoll (processWorkflow st w).1 rest).1,
        (processWorkflow st w).2.1 ++ (processPoll (processWorkflow st w).1 rest).2.1,
        (processWorkflow st w).2.2 || (processPoll (processWorkflow st w).1 rest).2.2) := rfl

/-- Lifting through one full poll. -/
theorem processPoll_count (st : DiffState) (wfs : List Wf) (nid : String) :
    countEvents (isCompletionFor nid) (processPoll st wfs).2.1
        + indB (st.processed.contains nid)
      ≤ indB (((processPoll st wfs).1).processed.contains nid) := by
  induction wfs generalizing st with
  | nil => simp [processPoll]
  | cons w rest ih =>
    have h1 := processWorkflow_count st w nid
    have h2 := ih (processWorkflow st w).1
    rw [processPoll_cons]
    simp only [countEvents_append]
    omega

/-- Lifting through one session step: only a successful poll can fire
completions or touch `processedNodes`. -/
theorem stepS_count (s : Session) (a : SAction) (nid : String) :
    countEvents (isCompletionFor nid) (stepS s a).2
        + indB (s.diff.processed.contains nid)
      ≤ indB (((stepS s a).1).diff.processed.contains nid) := by
  cases a with
  | startFetch =>
    by_cases h : s.isFetching && !s.inFlight <;> simp [stepS, h]
  | fetchOk wfs =>
    by_cases h : s.inFlight
    · simpa [stepS, h] using processPoll_count s.diff wfs nid
    · simp [stepS, h]
  | fetchBadJson =>
    by_cases h : s.inFlight <;>
      simp [stepS, h, catchBlock] <;> split <;> simp [countEvents_cons]
  | fetchFail =>
    by_cases h : s.inFlight <;>
      simp [stepS, h, catchBlock] <;> split <;> simp [countEvents_cons]
  | heartbeatTick =>
    by_cases h : s.heartbeatActive <;> simp [stepS, h, countEvents_cons]
  | connTimeoutFire =>
    by_cases h : s.connTimeoutPending <;> simp [stepS, h, countEvents_cons]
  | stopCall => simp [stepS, stopFetching]
  | abortResolve =>
    by_cases h : s.abortPending <;>
      simp [stepS, h, catchBlock] <;> split <;> simp [countEvents_cons]

theorem runS_cons (s : Session) (a : SAction) (rest : List SAction) :
    runS s (a :: rest) =
      ((runS (stepS s a).1 rest).1, (stepS s a).2 ++ (runS (stepS s a).1 rest).2) := rfl

/-- Lifting through a whole session run. -/
theorem runS_count (s : Session) (acts : List SAction) (nid : String) :
    countEvents (isCompletionFor nid) (runS s acts).2
        + indB (s.diff.processed.contains nid)
      ≤ indB (((runS s acts).1).diff.processed.contains nid) := by
  induction acts generalizing s with
  | nil => simp [runS]
  | cons a rest ih =>
    have h1 := stepS_count s a nid
    have h2 := ih (stepS s a).1
    rw [runS_cons]
    simp only [countEvents_append]
    omega

/-- A node that passes the loop test is fired for in this poll. -/
theorem processNodes_emits (wfName : String) (nodes : List (String × WfNode))
    (processed : List String) (nid : String) (node : WfNode)
    (hmem : (nid, node) ∈ nodes) (hhit : nodeHit processed nid node = true) :
    SEvent.completion wfName nid ∈ (processNodes processed wfName nodes).2 := by
  induction nodes generalizing processed with
  | nil => cases hmem
  | cons p rest ih =>
    cases p with
    | mk mid mnode =>
      by_cases hh : nodeHit processed mid mnode
      · by_cases he : mid = nid
        · subst he
          simp [processNodes, hh]
        · rcases List.mem_cons.mp hmem with heq | hmem2
          · exact absurd (congrArg Prod.fst heq).symm he
          · have hhit2 : nodeHit (mid :: processed) nid node = true := by
              have h3 : (nid == mid) = false := by
                simpa using fun x => he x.symm
              simp [nodeHit, List.contains_cons, h3] at hhit ⊢
              tauto
            simp only [processNodes, hh, if_pos]
            exact List.mem_cons_of_mem _ (ih (mid :: processed) hmem2 hhit2)
      · rcases List.mem_cons.mp hmem with heq | hmem2
        · cases heq
          exact absurd hhit hh
        · simpa [processNodes, hh] using ih processed hmem2 hhit

/-- C1 amended: over the whole lifetime of a session in which node id `nid`
is not yet processed, at most one completion callback fires for `nid`; and
whenever a poll takes the changed branch for a workflow (`hasUpdates`
contribution true) whose node map contains `nid` as an unprocessed
Pod/Container node in Succeeded or Failed phase, the completion callback for
`nid` does fire in that poll.  (The claim as frozen also requires firing for
the Error phase and on polls whose version token is unchanged; the code does
neither, see the counterexample.) -/
theorem completion_fired_once_per_node (s : Session) (nid : String)
    (acts : List SAction) (h : s.diff.processed.contains nid = false) :
    countEvents (isCompletionFor nid) (runS s acts).2 ≤ 1 ∧
    (∀ (st : DiffState) (w : Wf) (ns : List (String × WfNode)) (node : WfNode),
      w.nodes = some ns → (nid, node) ∈ ns →
      nodeHit st.processed nid node = true →
      (processWorkflow st w).2.2 = true →
      SEvent.completion (w.name.getD "") nid ∈ (processWorkflow st w).2.1) := by
  constructor
  · have h1 := runS_count s acts nid
    have h2 := indB_le_one (((runS s acts).1).diff.processed.contains nid)
    rw [h] at h1
    have h3 : indB false = 0 := rfl
    rw [h3] at h1
    omega
  · intro st w ns node hns hmem hhit hupd
    unfold processWorkflow at hupd ⊢
    by_cases h1 : truthyStr w.name && truthyStr w.rv
    · by_cases h2 : !(truthyStr (alookup st.versions (w.name.getD "")))
          || !(alookup st.versions (w.name.getD "") == some (w.rv.getD ""))
      · simp only [h1, h2, hns, if_pos, List.mem_append]
        exact Or.inl (processNodes_emits (w.name.getD "") ns st.processed nid node hmem hhit)
      · simp [h1, h2] at hupd
    · simp [h1] at hupd

theorem completion_fired_once_per_node_witness :
    (Session.diff initSession).processed.contains "n1" = false ∧
      countEvents (isCompletionFor "n1")
        (runS initSession
          [SAction.startFetch,
            SAction.fetchOk [⟨some "wf", some "1", some [("n1", ⟨"Pod", "Succeeded"⟩)]⟩],
            SAction.startFetch,
            SAction.fetchOk [⟨some "wf", some "2", some [("n1", ⟨"Pod", "Succeeded"⟩)]⟩]]).2
        ≤ 1 :=
  ⟨rfl,
    (completion_fired_once_per_node initSession "n1"
      [SAction.startFetch,
        SAction.fetchOk [⟨some "wf", some "1", some [("n1", ⟨"Pod", "Succeeded"⟩)]⟩],
        SAction.startFetch,
        SAction.fetchOk [⟨some "wf", some "2", some [("n1", ⟨"Pod", "Succeeded"⟩)]⟩]]
      rfl).1⟩

/-- C1 counterexample: the spec counts Error among the terminal phases, but
the node loop only tests Succeeded/Failed, so a Pod node first observed in
Error phase fires no completion callback on that poll (nor ever after): the
poll emits only its change event. -/
theorem error_phase_node_never_completes :
    (processWorkflow initDiff ⟨some "wf", some "1", some [("n1", ⟨"Pod", "Error"⟩)]⟩).2.1 =
      [SEvent.change "wf" "MODIFIED"] := by decide

/-! ## Adaptive interval: claim C5 -/

theorem updateInterval_bounds (b : Bool) (i : ℚ)
    (h1 : minIntervalMs ≤ i) (h2 : i ≤ maxIntervalMs) :
    minIntervalMs ≤ updateInterval b i ∧ updateInterval b i ≤ maxIntervalMs := by
  unfold minIntervalMs maxIntervalMs at *
  cases b <;> unfold updateInterval jsMax jsMin <;> constructor <;>
    simp only [Bool.false_eq_true, if_false, if_true] <;> split <;> nlinarith

theorem stepS_interval (s : Session) (a : SAction)
    (h1 : minIntervalMs ≤ s.refreshInterval) (h2 : s.refreshInterval ≤ maxIntervalMs) :
    minIntervalMs ≤ ((stepS s a).1).refreshInterval ∧
      ((stepS s a).1).refreshInterval ≤ maxIntervalMs := by
  cases a with
  | startFetch =>
    by_cases h : s.isFetching && !s.inFlight <;> simp [stepS, h] <;> exact ⟨h1, h2⟩
  | fetchOk wfs =>
    by_cases h : s.inFlight
    · have hb := updateInterval_bounds (processPoll s.diff wfs).2.2 s.refreshInterval h1 h2
      simpa [stepS, h] using hb
    · simp [stepS, h]; exact ⟨h1, h2⟩
  | fetchBadJson =>
    by_cases h : s.inFlight <;> simp [stepS, h, catchBlock] <;>
      first
        | exact ⟨h1, h2⟩
        | (split <;> simp <;> exact ⟨h1, h2⟩)
  | fetchFail =>
    by_cases h : s.inFlight <;> simp [stepS, h, catchBlock] <;>
      first
        | exact ⟨h1, h2⟩
        | (split <;> simp <;> exact ⟨h1, h2⟩)
  | heartbeatTick =>
    by_cases h : s.heartbeatActive <;> simp [stepS, h] <;> exact ⟨h1, h2⟩
  | connTimeoutFire =>
    by_cases h : s.connTimeoutPending <;> simp [stepS, h] <;> exact ⟨h1, h2⟩
  | stopCall => simp [stepS, stopFetching]; exact ⟨h1, h2⟩
  | abortResolve =>
    by_cases h : s.abortPending <;> simp [stepS, h, catchBlock] <;>
      first
        | exact ⟨h1, h2⟩
        | (split <;> simp <;> exact ⟨h1, h2⟩)

theorem runS_interval (s : Session) (acts : List SAction)
    (h1 : minIntervalMs ≤ s.refreshInterval) (h2 : s.refreshInterval ≤ maxIntervalMs) :
    minIntervalMs ≤ ((runS s acts).1).refreshInterval ∧
      ((runS s acts).1).refreshInterval ≤ maxIntervalMs := by
  induction acts generalizing s with
  | nil => exact ⟨h1, h2⟩
  | cons a rest ih =>
    have hs := stepS_interval s a h1 h2
    rw [runS_cons]
    exact ih (stepS s a).1 hs.1 hs.2

/-- C5 amended: in every reachable session state the polling interval stays
within `[minIntervalMs, maxIntervalMs]`, so the retry delay after a failed
poll is `interval * 2` and is bounded only by `2 * maxIntervalMs`; it is not
capped at the ceiling (see the counterexample). -/
theorem polling_interval_bounds (acts : List SAction) :
    minIntervalMs ≤ (runS initSession acts).1.refreshInterval ∧
      (runS initSession acts).1.refreshInterval ≤ maxIntervalMs ∧
      retryDelayMs ((runS initSession acts).1.refreshInterval) ≤ 2 * maxIntervalMs := by
  have h := runS_interval initSession acts
    (by norm_num [initSession, minIntervalMs])
    (by norm_num [initSession, maxIntervalMs])
  refine ⟨h.1, h.2, ?_⟩
  unfold retryDelayMs
  linarith [h.2]

set_option maxRecDepth 8000 in
/-- C5 counterexample: after six no-change polls from the initial 2000ms the
interval reaches 5971.968ms; a failing poll then schedules its retry after
`interval * 2` = 11943.936ms, which exceeds the 10000ms ceiling, while the
session keeps fetching (error count 1 of 5) — the doubling of the retry
delay is not capped at `maxIntervalMs`. -/
theorem retry_delay_exceeds_ceiling :
    (runS initSession (noUpdateCycles 6 ++ [SAction.startFetch, SAction.fetchFail])).1.isFetching
        = true ∧
      maxIntervalMs < retryDelayMs
        ((runS initSession
          (noUpdateCycles 6 ++ [SAction.startFetch, SAction.fetchFail])).1.refreshInterval) := by
  constructor <;>
    norm_num [noUpdateCycles, List.replicate, runS, stepS, processPoll, updateInterval,
      jsMin, jsMax, retryDelayMs, initSession, initDiff, maxIntervalMs, catchBlock,
      MAX_ERRORS]

/-! ## Error budget: claim C6 -/

theorem stepS_isFetching_mono (s : Session) (a : SAction)
    (h : s.isFetching = false) : ((stepS s a).1).isFetching = false := by
  cases a with
  | startFetch => simp [stepS, h]
  | fetchOk wfs => by_cases hf : s.inFlight <;> simp [stepS, hf, h]
  | fetchBadJson =>
    by_cases hf : s.inFlight
    · simp only [stepS, hf, if_true, catchBlock]
      split <;> simp [h]
    · simp [stepS, hf, h]
  | fetchFail =>
    by_cases hf : s.inFlight
    · simp only [stepS, hf, if_true, catchBlock]
      split <;> simp [h]
    · simp [stepS, hf, h]
  | heartbeatTick => by_cases hf : s.heartbeatActive <;> simp [stepS, hf, h]
  | connTimeoutFire => by_cases hf : s.connTimeoutPending <;> simp [stepS, hf, h]
  | stopCall => simp [stepS, stopFetching]
  | abortResolve =>
    by_cases hf : s.abortPending
    · simp only [stepS, hf, if_true, catchBlock]
      split <;> simp [h]
    · simp [stepS, hf, h]

theorem runS_isFetching_mono (s : Session) (acts : List SAction)
    (h : s.isFetching = false) : ((runS s acts).1).isFetching = false := by
  induction acts generalizing s with
  | nil => exact h
  | cons a rest ih =>
    rw [runS_cons]
    exact ih (stepS s a).1 (stepS_isFetching_mono s a h)

theorem runS_append (s : Session) (l1 l2 : List SAction) :
    runS s (l1 ++ l2) =
      ((runS (runS s l1).1 l2).1, (runS s l1).2 ++ (runS (runS s l1).1 l2).2) := by
  induction l1 generalizing s with
  | nil => simp [runS]
  | cons a rest ih =>
    simp only [List.cons_append, runS_cons, ih, List.append_assoc]

theorem failCycles_snoc (k : Nat) :
    failCycles (k + 1) = failCycles k ++ [SAction.startFetch, SAction.fetchFail] := by
  simp [failCycles, List.replicate_succ']

/-- A failing poll below the budget: one error event, counter incremented,
fetching still enabled. -/
theorem failCycle_below_budget (s : Session) (h1 : s.isFetching = true)
    (h2 : s.inFlight = false) (h3 : s.errorCount + 1 < MAX_ERRORS) :
    runS s [SAction.startFetch, SAction.fetchFail] =
      ({ s with inFlight := false, errorCount := s.errorCount + 1 }, [SEvent.errorCb]) := by
  obtain ⟨f, d, ri, ec, ct, hb, fl, ab⟩ := s
  simp only at h1 h2 h3
  subst h1; subst h2
  have h4 : ¬ MAX_ERRORS ≤ ec + 1 := by omega
  simp [runS, stepS, catchBlock, h4]

/-- The failing poll that exhausts the budget: error event plus the fatal
exhaustion report, fetching disabled. -/
theorem failCycle_at_budget (s : Session) (h1 : s.isFetching = true)
    (h2 : s.inFlight = false) (h3 : MAX_ERRORS ≤ s.errorCount + 1) :
    runS s [SAction.startFetch, SAction.fetchFail] =
      ({ s with isFetching := false, inFlight := false, errorCount := s.errorCount + 1 },
        [SEvent.errorCb, SEvent.fatalExhausted]) := by
  obtain ⟨f, d, ri, ec, ct, hb, fl, ab⟩ := s
  simp only at h1 h2 h3
  subst h1; subst h2
  simp [runS, stepS, catchBlock, h3]

/-- Running `k` failing polls below the budget. -/
theorem failCycles_below_budget (s : Session) (k : Nat) (h1 : s.isFetching = true)
    (h2 : s.inFlight = false) (h3 : s.errorCount + k < MAX_ERRORS) :
    runS s (failCycles k) =
      ({ s with inFlight := false, errorCount := s.errorCount + k },
        List.replicate k SEvent.errorCb) := by
  induction k generalizing s with
  | zero =>
    obtain ⟨f, d, ri, ec, ct, hb, fl, ab⟩ := s
    simp only at h2
    subst h2
    simp [failCycles, runS]
  | succ k ih =>
    obtain ⟨f, d, ri, ec, ct, hb, fl, ab⟩ := s
    simp only at h1 h2 h3
    subst h1; subst h2
    have ihx := ih ⟨true, d, ri, ec, ct, hb, false, ab⟩ rfl rfl
      (by simp only [MAX_ERRORS] at h3 ⊢; omega)
    rw [failCycles_snoc, runS_append, ihx]
    have hstep := failCycle_below_budget ⟨true, d, ri, ec + k, ct, hb, false, ab⟩
      rfl rfl (by simp only [MAX_ERRORS] at h3 ⊢; omega)
    simp only at hstep ⊢
    rw [hstep]
    simp only [Prod.mk.injEq, Session.mk.injEq, List.replicate_succ', and_true, true_and]
    omega

/-- C6: a session that is fetching with a clean error counter becomes
terminal after `MAX_ERRORS` consecutive failed polls: fetching is disabled,
the fatal StreamExhausted report is delivered, fetching never resumes under
any further actions, and a later poll tick is a no-op; fewer than
`MAX_ERRORS` consecutive failures never report exhaustion and leave fetching
enabled; and any successful fetch resets the consecutive-error counter to
zero. -/
theorem error_budget_exhaustion_fatal (s : Session)
    (h1 : s.isFetching = true) (h2 : s.inFlight = false) (h3 : s.errorCount = 0) :
    ((runS s (failCycles MAX_ERRORS)).1.isFetching = false ∧
      SEvent.fatalExhausted ∈ (runS s (failCycles MAX_ERRORS)).2) ∧
    (∀ acts : List SAction,
      ((runS (runS s (failCycles MAX_ERRORS)).1 acts).1).isFetching = false) ∧
    (stepS (runS s (failCycles MAX_ERRORS)).1 SAction.startFetch =
      ((runS s (failCycles MAX_ERRORS)).1, [])) ∧
    (∀ k, k < MAX_ERRORS →
      (runS s (failCycles k)).1.isFetching = true ∧
      SEvent.fatalExhausted ∉ (runS s (failCycles k)).2) ∧
    (∀ (s2 : Session) (wfs : List Wf), s2.inFlight = true →
      ((stepS s2 (SAction.fetchOk wfs)).1).errorCount = 0) := by
  obtain ⟨f, d, ri, ec, ct, hb, fl, ab⟩ := s
  simp only at h1 h2 h3
  subst h1; subst h2; subst h3
  have h4 := failCycles_below_budget ⟨true, d, ri, 0, ct, hb, false, ab⟩ 4 rfl rfl
    (by simp only [MAX_ERRORS]; omega)
  simp only at h4
  have h5 := failCycle_at_budget ⟨true, d, ri, 0 + 4, ct, hb, false, ab⟩ rfl rfl
    (by simp only [MAX_ERRORS]; omega)
  simp only at h5
  have hrun : runS ⟨true, d, ri, 0, ct, hb, false, ab⟩ (failCycles MAX_ERRORS) =
      (⟨false, d, ri, 0 + 4 + 1, ct, hb, false, ab⟩,
        List.replicate 4 SEvent.errorCb ++ [SEvent.errorCb, SEvent.fatalExhausted]) := by
    rw [show MAX_ERRORS = 4 + 1 from rfl, failCycles_snoc, runS_append, h4, h5]
  refine ⟨?_, ?_, ?_, ?_, ?_⟩
  · rw [hrun]
    exact ⟨rfl, by simp⟩
  · intro acts
    rw [hrun]
    exact runS_isFetching_mono _ acts rfl
  · rw [hrun]
    simp [stepS]
  · intro k hk
    have hkk := failCycles_below_budget ⟨true, d, ri, 0, ct, hb, false, ab⟩ k rfl rfl
      (by simp only [MAX_ERRORS] at hk ⊢; omega)
    rw [hkk]
    exact ⟨rfl, by simp [List.mem_replicate]⟩
  · intro s2 wfs hin
    simp [stepS, hin]

theorem error_budget_exhaustion_fatal_witness :
    (runS initSession (failCycles MAX_ERRORS)).1.isFetching = false ∧
      SEvent.fatalExhausted ∈ (runS initSession (failCycles MAX_ERRORS)).2 :=
  (error_budget_exhaustion_fatal initSession rfl rfl rfl).1

/-! ## Stop: claim C7 -/

/-- A disarmed session with no pending abort rejection does nothing on any
action: every timer is gone and the `isFetching` guard stops `fetchData`. -/
theorem disarmed_noPending_step (s : Session) (a : SAction)
    (hd : Disarmed s) (hp : s.abortPending = false) : stepS s a = (s, []) := by
  obtain ⟨f, d, ri, ec, ct, hb, fl, ab⟩ := s
  obtain ⟨hf, hin, hhb, hct⟩ := hd
  simp only at hf hin hhb hct hp
  subst hf; subst hin; subst hhb; subst hct; subst hp
  cases a <;> simp [stepS, stopFetching]

theorem disarmed_noPending_run (s : Session) (acts : List SAction)
    (hd : Disarmed s) (hp : s.abortPending = false) : runS s acts = (s, []) := by
  induction acts with
  | nil => rfl
  | cons a rest ih =>
    rw [runS_cons, disarmed_noPending_step s a hd hp]
    simpa using ih

/-- A disarmed session ignores every action other than the pending abort
rejection. -/
theorem disarmed_step_other (s : Session) (a : SAction)
    (hd : Disarmed s) (ha : a ≠ SAction.abortResolve) : stepS s a = (s, []) := by
  obtain ⟨f, d, ri, ec, ct, hb, fl, ab⟩ := s
  obtain ⟨hf, hin, hhb, hct⟩ := hd
  simp only at hf hin hhb hct
  subst hf; subst hin; subst hhb; subst hct
  cases a <;> simp_all [stepS, stopFetching]

/-- Resolving the pending abort rejection delivers the error callback (plus
the exhaustion report when the counter crosses the budget) and nothing
else; the session stays disarmed. -/
theorem disarmed_abortResolve (s : Session) (hd : Disarmed s)
    (hp : s.abortPending = true) :
    Disarmed (stepS s SAction.abortResolve).1 ∧
      ((stepS s SAction.abortResolve).1).abortPending = false ∧
      ((stepS s SAction.abortResolve).2 = [SEvent.errorCb] ∨
        (stepS s SAction.abortResolve).2 = [SEvent.errorCb, SEvent.fatalExhausted]) := by
  obtain ⟨f, d, ri, ec, ct, hb, fl, ab⟩ := s
  obtain ⟨hf, hin, hhb, hct⟩ := hd
  simp only at hf hin hhb hct hp
  subst hf; subst hin; subst hhb; subst hct; subst hp
  by_cases hm : MAX_ERRORS ≤ ec + 1 <;>
    simp [stepS, catchBlock, Disarmed, hm]

/-- Everything a disarmed session can still deliver: nothing, or the error
callback of an aborted in-flight fetch, possibly followed by the exhaustion
report. -/
theorem disarmed_run_events (s : Session) (acts : List SAction) (hd : Disarmed s) :
    (runS s acts).2 = [] ∨ (runS s acts).2 = [SEvent.errorCb] ∨
      (runS s acts).2 = [SEvent.errorCb, SEvent.fatalExhausted] := by
  induction acts generalizing s with
  | nil => exact Or.inl rfl
  | cons a rest ih =>
    by_cases hp : s.abortPending
    · by_cases ha : a = SAction.abortResolve
      · subst ha
        obtain ⟨hd2, hp2, hev⟩ := disarmed_abortResolve s hd hp
        rw [runS_cons, disarmed_noPending_run _ rest hd2 hp2]
        rcases hev with h | h <;> simp [h]
      · rw [runS_cons, disarmed_step_other s a hd ha]
        simpa using ih s hd
    · rw [runS_cons, disarmed_noPending_step s a hd (by simpa using hp)]
      simpa using ih s hd

/-- C7 amended: `stopFetching` is idempotent, and after it returns the
session delivers no change, completion or heartbeat event whatsoever; the
only events still possible are the error callback fired by the rejection of
the aborted in-flight fetch (at most once), possibly with the exhaustion
report.  (The claim as frozen asserts that no event of any kind is delivered
after stop; the aborted fetch refutes that, see the counterexample.) -/
theorem stop_idempotent_quiescent (s : Session) (acts : List SAction) :
    stopFetching (stopFetching s) = stopFetching s ∧
    ((runS (stopFetching s) acts).2 = [] ∨
      (runS (stopFetching s) acts).2 = [SEvent.errorCb] ∨
      (runS (stopFetching s) acts).2 = [SEvent.errorCb, SEvent.fatalExhausted]) := by
  constructor
  · obtain ⟨f, d, ri, ec, ct, hb, fl, ab⟩ := s
    simp [stopFetching]
  · exact disarmed_run_events (stopFetching s) acts
      (by simp [stopFetching, Disarmed])

/-- C7 counterexample: `stop()` called while a fetch is in flight.  The
abort makes the fetch reject; its `catch` block then invokes
`errorCallback(error)` unconditionally, so the subscriber receives an error
event from a step that runs entirely after `stop()` returned. -/
theorem error_event_after_stop :
    (runS (runS initSession [SAction.startFetch, SAction.stopCall]).1
        [SAction.abortResolve]).2 = [SEvent.errorCb] := by decide

/-! ## Heartbeat survival: claim C10 -/

/-- C10: no session step other than `stopFetching` clears the heartbeat
interval timer — in particular neither a failed poll (including the one
that exhausts the error budget) nor the 30s startup timeout does — and as
long as the timer is installed every heartbeat tick delivers a heartbeat
event to the subscriber, at the fixed 15000ms period; only `stopFetching`
clears it. -/
theorem heartbeat_survives_fatal (s : Session) (a : SAction)
    (ha : a ≠ SAction.stopCall) (hhb : s.heartbeatActive = true) :
    ((stepS s a).1).heartbeatActive = s.heartbeatActive ∧
    stepS s SAction.heartbeatTick = (s, [SEvent.heartbeat]) ∧
    (stopFetching s).heartbeatActive = false ∧
    heartbeatPeriodMs = 15000 := by
  refine ⟨?_, by simp [stepS, hhb], rfl, rfl⟩
  cases a with
  | startFetch => by_cases h : s.isFetching && !s.inFlight <;> simp [stepS, h]
  | fetchOk wfs => by_cases h : s.inFlight <;> simp [stepS, h]
  | fetchBadJson =>
    by_cases h : s.inFlight
    · simp only [stepS, h, if_true, catchBlock]
      split <;> simp
    · simp [stepS, h]
  | fetchFail =>
    by_cases h : s.inFlight
    · simp only [stepS, h, if_true, catchBlock]
      split <;> simp
    · simp [stepS, h]
  | heartbeatTick => by_cases h : s.heartbeatActive <;> simp [stepS, h]
  | connTimeoutFire => by_cases h : s.connTimeoutPending <;> simp [stepS, h]
  | stopCall => exact absurd rfl ha
  | abortResolve =>
    by_cases h : s.abortPending
    · simp only [stepS, h, if_true, catchBlock]
      split <;> simp
    · simp [stepS, h]

theorem heartbeat_survives_fatal_witness :
    (SAction.connTimeoutFire ≠ SAction.stopCall ∧
        ((runS initSession (failCycles MAX_ERRORS)).1).heartbeatActive = true) ∧
      stepS (runS initSession (failCycles MAX_ERRORS)).1 SAction.heartbeatTick =
        ((runS initSession (failCycles MAX_ERRORS)).1, [SEvent.heartbeat]) :=
  ⟨⟨by decide, by decide⟩,
    (heartbeat_survives_fatal (runS initSession (failCycles MAX_ERRORS)).1
      SAction.connTimeoutFire (by decide) (by decide)).2.1⟩

/-! ## DAG Order Resolver: claim C8 -/

theorem minString_mem (l : List String) (m : String) (h : minString l = some m) :
    m ∈ l := by
  induction l generalizing m with
  | nil => cases h
  | cons s rest ih =>
    cases hm : minString rest with
    | none =>
      simp only [minString, hm] at h
      injection h with h
      simp [h.symm]
    | some m0 =>
      simp only [minString, hm] at h
      by_cases hlt : s < m0
      · rw [if_pos hlt] at h
        injection h with h
        simp [h.symm]
      · rw [if_neg hlt] at h
        injection h with h
        subst h
        exact List.mem_cons_of_mem _ (ih m0 hm)

theorem minString_none (l : List String) (h : minString l = none) : l = [] := by
  cases l with
  | nil => rfl
  | cons s rest =>
    exfalso
    cases hm : minString rest with
    | none => simp [minString, hm] at h
    | some m0 =>
      simp only [minString, hm] at h
      by_cases hlt : s < m0
      · rw [if_pos hlt] at h
        cases h
      · rw [if_neg hlt] at h
        cases h

theorem minReady_mem (g : DepGraph) (remaining : List String) (t : String)
    (h : minReady g remaining = some t) :
    t ∈ remaining ∧ isReady g remaining t = true := by
  have hmem := minString_mem _ t h
  exact ⟨(List.mem_filter.mp hmem).1, (List.mem_filter.mp hmem).2⟩

theorem minReady_none (g : DepGraph) (remaining : List String)
    (h : minReady g remaining = none) :
    ∀ t ∈ remaining, isReady g remaining t = false := by
  intro t ht
  cases hready : isReady g remaining t with
  | false => rfl
  | true =>
    have hmem : t ∈ remaining.filter (isReady g remaining) :=
      List.mem_filter.mpr ⟨ht, hready⟩
    rw [minString_none _ h] at hmem
    cases hmem

/-- A ready task has no dependency among the unordered tasks. -/
theorem isReady_deps (g : DepGraph) (remaining : List String) (t : String)
    (h : isReady g remaining t = true) :
    ∀ d ∈ depsOf g t, d ∉ remaining := by
  intro d hd
  have := (List.all_eq_true.mp h) d hd
  simpa using this

/-- An unready task has a dependency among the unordered tasks. -/
theorem not_ready_deps (g : DepGraph) (remaining : List String) (t : String)
    (h : isReady g remaining t = false) :
    ∃ d ∈ depsOf g t, d ∈ remaining := by
  by_contra hc
  push_neg at hc
  have : isReady g remaining t = true := by
    apply List.all_eq_true.mpr
    intro d hd
    simpa using hc d hd
  rw [this] at h
  cases h

/-- The accumulator invariant yields edge-consistency of the reversed
output. -/
theorem inv_consistent (g : DepGraph) (acc : List String)
    (hinv : ∀ q t p, acc = q ++ t :: p → ∀ d ∈ depsOf g t, d ∈ g.taskNames → d ∈ p) :
    ConsistentWithEdges g acc.reverse := by
  intro p t q hsplit d hd hdT
  have hsplit2 : acc = q.reverse ++ t :: p.reverse := by
    have h2 := congrArg List.reverse hsplit
    simpa [List.reverse_append] using h2
  have hm := hinv q.reverse t p.reverse hsplit2 d hd hdT
  simpa using hm

/-- Soundness of the Kahn loop: when it returns an order, the order is a
permutation of the remaining-plus-output tasks and respects every edge. -/
theorem kahnLoop_sound (g : DepGraph) (fuel : Nat) :
    ∀ (acc remaining ord : List String),
      (acc.reverse ++ remaining).Perm g.taskNames →
      (∀ q t p, acc = q ++ t :: p → ∀ d ∈ depsOf g t, d ∈ g.taskNames → d ∈ p) →
      kahnLoop g fuel acc remaining = some ord →
      ord.Perm g.taskNames ∧ ConsistentWithEdges g ord := by
  induction fuel with
  | zero =>
    intro acc remaining ord hperm hinv hres
    cases remaining with
    | cons r rest => simp [kahnLoop] at hres
    | nil =>
      simp only [kahnLoop, List.isEmpty_nil, if_pos] at hres
      injection hres with hres
      subst hres
      exact ⟨by simpa using hperm, inv_consistent g acc hinv⟩
  | succ fuel ih =>
    intro acc remaining ord hperm hinv hres
    unfold kahnLoop at hres
    cases hmr : minReady g remaining with
    | none =>
      rw [hmr] at hres
      cases remaining with
      | cons r rest => simp at hres
      | nil =>
        simp only [List.isEmpty_nil, if_pos] at hres
        injection hres with hres
        subst hres
        exact ⟨by simpa using hperm, inv_consistent g acc hinv⟩
    | some t =>
      rw [hmr] at hres
      obtain ⟨htmem, htready⟩ := minReady_mem g remaining t hmr
      refine ih (t :: acc) (remaining.erase t) ord ?_ ?_ hres
      · have h0 : ((t :: acc).reverse ++ remaining.erase t : List String)
            = acc.reverse ++ (t :: remaining.erase t) := by simp
        rw [h0]
        exact (List.Perm.append_left acc.reverse
          (List.perm_cons_erase htmem).symm).trans hperm
      · intro q t2 p hsplit d hd hdT
        cases q with
        | nil =>
          simp only [List.nil_append] at hsplit
          injection hsplit with h1 h2
          subst h2
          rw [← h1] at hd
          have hdnot := isReady_deps g remaining t htready d hd
          have hdmem : d ∈ acc.reverse ++ remaining :=
            (hperm.mem_iff).mpr hdT
          rcases List.mem_append.mp hdmem with hda | hdr
          · simpa using hda
          · exact absurd hdr hdnot
        | cons q0 qrest =>
          simp only [List.cons_append] at hsplit
          injection hsplit with h1 h2
          exact hinv qrest t2 p h2 d hd hdT

/-- Any cycle keeps its tasks unordered forever, so the loop can never end
with an empty remainder. -/
theorem kahnLoop_cycle_none (g : DepGraph) (S : List String) (hS : S ≠ [])
    (hdep : ∀ t ∈ S, ∃ d ∈ depsOf g t, d ∈ S) (fuel : Nat) :
    ∀ (acc remaining : List String), (∀ x ∈ S, x ∈ remaining) →
      kahnLoop g fuel acc remaining = none := by
  induction fuel with
  | zero =>
    intro acc remaining hsub
    obtain ⟨x, hx⟩ := List.exists_mem_of_ne_nil S hS
    cases remaining with
    | nil => cases hsub x hx
    | cons r rest => simp [kahnLoop]
  | succ fuel ih =>
    intro acc remaining hsub
    obtain ⟨x, hx⟩ := List.exists_mem_of_ne_nil S hS
    unfold kahnLoop
    cases hmr : minReady g remaining with
    | none =>
      cases remaining with
      | nil => cases hsub x hx
      | cons r rest => simp
    | some t =>
      apply ih (t :: acc) (remaining.erase t)
      intro y hy
      have hyrem := hsub y hy
      have hyt : y ≠ t := by
        rintro rfl
        obtain ⟨_, hready⟩ := minReady_mem g remaining y hmr
        obtain ⟨d, hd, hdS⟩ := hdep y hy
        exact absurd (hsub d hdS) (isReady_deps g remaining y hready d hd)
      exact (List.mem_erase_of_ne hyt).mpr hyrem

/-- When the loop gives up, the stuck remainder is a cycle. -/
theorem kahnLoop_none_cycle (g : DepGraph) (fuel : Nat) :
    ∀ (acc remaining : List String),
      fuel = remaining.length →
      (∀ x ∈ remaining, x ∈ g.taskNames) →
      kahnLoop g fuel acc remaining = none → HasCycle g := by
  induction fuel with
  | zero =>
    intro acc remaining hlen hsub hres
    have hnil : remaining = [] := List.length_eq_zero.mp hlen.symm
    subst hnil
    simp [kahnLoop] at hres
  | succ fuel ih =>
    intro acc remaining hlen hsub hres
    unfold kahnLoop at hres
    cases hmr : minReady g remaining with
    | none =>
      rw [hmr] at hres
      cases hrem : remaining with
      | nil => simp [hrem] at hres
      | cons r rest =>
        refine ⟨remaining, by simp [hrem], hsub, ?_⟩
        intro t ht
        exact not_ready_deps g remaining t (minReady_none g remaining hmr t ht)
    | some t =>
      rw [hmr] at hres
      obtain ⟨htmem, _⟩ := minReady_mem g remaining t hmr
      refine ih (t :: acc) (remaining.erase t) ?_
        (fun x hx => hsub x (List.mem_of_mem_erase hx)) hres
      rw [List.length_erase_of_mem htmem]
      omega

/-- C8: Modelled from the spec (no resolver exists under `src/`): the Kahn
resolver always terminates with a definite answer; an order, when returned,
is a permutation of the task set consistent with the dependency edges; no
order is returned exactly when the dependency graph has a cycle (the NoOrder
value, not an exception); and on NoOrder the caller falls back to
alphabetical ordering of the raw node names. -/
theorem dag_resolver_correct (g : DepGraph) :
    (∀ ord, resolveOrder g = some ord →
      ord.Perm g.taskNames ∧ ConsistentWithEdges g ord) ∧
    (resolveOrder g = none ↔ HasCycle g) ∧
    (∀ raw, resolveOrder g = none → orderedNames g raw = sortAlpha raw) := by
  refine ⟨?_, ⟨?_, ?_⟩, ?_⟩
  · intro ord hres
    refine kahnLoop_sound g g.taskNames.length [] g.taskNames ord (by simp) ?_ hres
    intro q t p h d hd hdT
    simp at h
  · intro hres
    exact kahnLoop_none_cycle g g.taskNames.length [] g.taskNames rfl
      (fun x hx => hx) hres
  · intro hcyc
    obtain ⟨S, hS, hsub, hdep⟩ := hcyc
    exact kahnLoop_cycle_none g S hS hdep g.taskNames.length [] g.taskNames hsub
  · intro raw hres
    unfold orderedNames
    rw [hres]

theorem dag_resolver_correct_witness :
    (HasCycle cycleGraph ∧ resolveOrder cycleGraph = none ∧
        orderedNames cycleGraph ["Q", "P"] = sortAlpha ["Q", "P"]) ∧
      resolveOrder chainGraph = some ["A", "B", "C"] := by
  have hcyc : HasCycle cycleGraph :=
    ⟨["P", "Q"], by decide, by decide, by decide⟩
  have hnone : resolveOrder cycleGraph = none :=
    (dag_resolver_correct cycleGraph).2.1.mpr hcyc
  exact ⟨⟨hcyc, hnone, (dag_resolver_correct cycleGraph).2.2 ["Q", "P"] hnone⟩,
    by decide⟩

end VisWorkflowExec
